import Mathlib

/-!
Formal model of the WealthWise ML service quantitative core
(src/ml-service/api/main.py and src/ml-service/optimization/portfolio_optimizer.py).

The Python code computes over floats with Python's round (banker's rounding,
half to even).  The model computes over exact rationals with the same
half-to-even rounding rule; on the finite input domains relevant here
(integer risk scores 1..10, the fixed calibration tables) the float and the
exact computation round identically, every rounded quantity being far from a
representation boundary except the exact .5 ties, which half-to-even settles
the same way in both.  Monte Carlo randomness is modelled by an explicit
draw stream (the sequence of monthly returns the seeded generator realises),
so a run of the simulation is a pure function of the request and the stream.

Real-valued quantities (portfolio volatility, a square root) live in ℝ;
every other quantity is an executable rational or integer computation.
-/

attribute [local semireducible] Rat.mul Rat.inv Rat.add Rat.sub Rat.ofScientific

namespace WealthWise

/-- Python's built-in round on an exact value: nearest integer, ties to even. -/
def pyRound {α : Type} [LinearOrderedField α] [FloorRing α] (x : α) : ℤ :=
  if x - ⌊x⌋ < 1/2 then ⌊x⌋
  else if 1/2 < x - ⌊x⌋ then ⌊x⌋ + 1
  else if ⌊x⌋ % 2 = 0 then ⌊x⌋ else ⌊x⌋ + 1

/-- Python's round(x, 2): round to two decimal places, ties to even. -/
def roundTo2 {α : Type} [LinearOrderedField α] [FloorRing α] (x : α) : α :=
  (pyRound (x * 100) : α) / 100

/-- Python's round(x, 1): round to one decimal place, ties to even. -/
def roundTo1 {α : Type} [LinearOrderedField α] [FloorRing α] (x : α) : α :=
  (pyRound (x * 10) : α) / 10

/-- Zero-based indexing into a list of rationals, 0 past the end
(models indexing into a numpy array whose accesses are in bounds). -/
def nth : List ℚ → ℕ → ℚ
  | [], _ => 0
  | x :: _, 0 => x
  | _ :: xs, n + 1 => nth xs n

/-- First value stored under a key, if any (a Python dict access, the dicts
in the service having no duplicate keys). -/
def alookup {β : Type} : List (String × β) → String → Option β
  | [], _ => none
  | p :: rest, k => if p.1 = k then some p.2 else alookup rest k

/-- Python's dict.get(k, 0). -/
def getD (l : List (String × ℚ)) (k : String) : ℚ := (alookup l k).getD 0

/-- The keys of an association list, in order. -/
def keys {β : Type} (l : List (String × β)) : List String := l.map Prod.fst

/-- The values of an association list, in order. -/
def vals (l : List (String × ℚ)) : List ℚ := l.map Prod.snd

/-- Pointwise update of every value, keys untouched (a Python loop writing
dict entries in place). -/
def mapVals (g : String → ℚ → ℚ) (l : List (String × ℚ)) : List (String × ℚ) :=
  l.map (fun p => (p.1, g p.1 p.2))

/-- Dot product of two rational vectors (np.dot). -/
def dotL (xs ys : List ℚ) : ℚ := (List.zipWith (· * ·) xs ys).sum

/-! Asset configuration of src/ml-service/api/main.py: ASSET_METRICS,
CORRELATION_MATRIX and ASSET_ORDER. -/

/-- ASSET_ORDER in main.py. -/
def ASSET_ORDER : List String :=
  ["US_STOCKS", "INTL_STOCKS", "BONDS", "REAL_ESTATE", "COMMODITIES", "CASH"]

/-- The expected_return column of ASSET_METRICS in main.py. -/
def assetReturns : List (String × ℚ) :=
  [("US_STOCKS", 0.10), ("INTL_STOCKS", 0.08), ("BONDS", 0.04),
   ("REAL_ESTATE", 0.07), ("COMMODITIES", 0.05), ("CASH", 0.03)]

/-- The volatility column of ASSET_METRICS in main.py. -/
def assetVols : List (String × ℚ) :=
  [("US_STOCKS", 0.15), ("INTL_STOCKS", 0.18), ("BONDS", 0.05),
   ("REAL_ESTATE", 0.14), ("COMMODITIES", 0.20), ("CASH", 0.01)]

/-- The etf column of ASSET_METRICS in main.py. -/
def assetEtfs : List (String × String) :=
  [("US_STOCKS", "VTI"), ("INTL_STOCKS", "VXUS"), ("BONDS", "BND"),
   ("REAL_ESTATE", "VNQ"), ("COMMODITIES", "GSG"), ("CASH", "SGOV")]

/-- CORRELATION_MATRIX in main.py, rows and columns in ASSET_ORDER order. -/
def CORRELATION_MATRIX : List (List ℚ) :=
  [[1.00, 0.75, 0.10, 0.60, 0.30, 0.00],
   [0.75, 1.00, 0.15, 0.55, 0.35, 0.00],
   [0.10, 0.15, 1.00, 0.20, 0.05, 0.00],
   [0.60, 0.55, 0.20, 1.00, 0.25, 0.00],
   [0.30, 0.35, 0.05, 0.25, 1.00, 0.00],
   [0.00, 0.00, 0.00, 0.00, 0.00, 1.00]]

/-- The weight array of calculate_portfolio_metrics: weights.get(asset, 0)/100
for asset in ASSET_ORDER. -/
def weightArray (w : List (String × ℚ)) : List ℚ :=
  ASSET_ORDER.map (fun a => getD w a / 100)

/-- np.dot(weight_array, returns) in calculate_portfolio_metrics. -/
def portfolioExpectedReturn (w : List (String × ℚ)) : ℚ :=
  dotL (weightArray w) (ASSET_ORDER.map (getD assetReturns))

/-- The portfolio variance np.dot(w, np.dot(cov, w)) of
calculate_portfolio_metrics, with cov = np.outer(vol, vol) * CORRELATION_MATRIX. -/
def portfolioVarianceQ (w : List (String × ℚ)) : ℚ :=
  let wa := weightArray w
  let vols := ASSET_ORDER.map (getD assetVols)
  let cov := List.zipWith (fun vi row => List.zipWith (fun vj c => vi * vj * c) vols row)
    vols CORRELATION_MATRIX
  dotL wa (cov.map (dotL wa))

/-- portfolio_volatility = np.sqrt(portfolio_variance) in
calculate_portfolio_metrics. -/
noncomputable def portfolioVolatility (w : List (String × ℚ)) : ℝ :=
  Real.sqrt ((portfolioVarianceQ w : ℚ) : ℝ)

/-- The sharpe_ratio local of calculate_portfolio_metrics:
(expected_return - risk_free_rate) / portfolio_volatility if
portfolio_volatility > 0 else 0, with risk_free_rate = 0.03. -/
noncomputable def sharpe_ratio (w : List (String × ℚ)) : ℝ :=
  if 0 < portfolioVolatility w then
    (((portfolioExpectedReturn w : ℚ) : ℝ) - 0.03) / portfolioVolatility w
  else 0

/-- The value calculate_portfolio_metrics returns. -/
structure PortfolioMetrics where
  expected_return : ℝ
  volatility : ℝ
  sharpe : ℝ

/-- calculate_portfolio_metrics in main.py (fields rounded to 2 decimals as
in the source). -/
noncomputable def calculate_portfolio_metrics (w : List (String × ℚ)) : PortfolioMetrics :=
  { expected_return := roundTo2 (((portfolioExpectedReturn w : ℚ) : ℝ) * 100)
    volatility := roundTo2 (portfolioVolatility w * 100)
    sharpe := roundTo2 (sharpe_ratio w) }

/-- get_model_portfolio in main.py: single linear interpolation between the
conservative and the aggressive table with factor (risk_score - 1)/9, each
weight rounded to the nearest integer, then the signed residual 100 - total
added to BONDS. -/
def get_model_portfolio (risk_score : ℤ) : List (String × ℚ) :=
  let conservative : List (String × ℚ) :=
    [("US_STOCKS", 10), ("INTL_STOCKS", 5), ("BONDS", 75), ("REAL_ESTATE", 5), ("CASH", 5)]
  let aggressive : List (String × ℚ) :=
    [("US_STOCKS", 55), ("INTL_STOCKS", 25), ("BONDS", 5), ("REAL_ESTATE", 15), ("CASH", 0)]
  let factor : ℚ := ((risk_score : ℚ) - 1) / 9
  let allocation := ASSET_ORDER.map (fun a =>
    (a, (pyRound (getD conservative a * (1 - factor) + getD aggressive a * factor) : ℚ)))
  let total := (vals allocation).sum
  if total ≠ 100 then
    mapVals (fun k v => if k = "BONDS" then v + (100 - total) else v) allocation
  else allocation

/-! Embedding of src/ml-service/optimization/portfolio_optimizer.py:
the eight-asset universe and optimize_for_risk_score. -/

/-- The key order of PortfolioOptimizer.assets (dict insertion order). -/
def optimizerAssets : List String :=
  ["US_STOCKS", "INTL_STOCKS", "EMERGING_MARKETS", "BONDS", "TIPS",
   "REAL_ESTATE", "COMMODITIES", "CASH"]

/-- The conservative model portfolio of optimize_for_risk_score. -/
def conservative8 : List (String × ℚ) :=
  [("US_STOCKS", 10), ("INTL_STOCKS", 5), ("EMERGING_MARKETS", 0),
   ("BONDS", 60), ("TIPS", 15), ("REAL_ESTATE", 5), ("COMMODITIES", 0), ("CASH", 5)]

/-- The moderate model portfolio of optimize_for_risk_score. -/
def moderate8 : List (String × ℚ) :=
  [("US_STOCKS", 30), ("INTL_STOCKS", 15), ("EMERGING_MARKETS", 5),
   ("BONDS", 30), ("TIPS", 5), ("REAL_ESTATE", 10), ("COMMODITIES", 0), ("CASH", 5)]

/-- The aggressive model portfolio of optimize_for_risk_score. -/
def aggressive8 : List (String × ℚ) :=
  [("US_STOCKS", 45), ("INTL_STOCKS", 20), ("EMERGING_MARKETS", 10),
   ("BONDS", 5), ("TIPS", 0), ("REAL_ESTATE", 15), ("COMMODITIES", 5), ("CASH", 0)]

/-- PortfolioOptimizer._interpolate_allocations: per asset
round(v1*(1-factor) + v2*factor), then the signed residual 100 - total added
to BONDS when the rounded weights do not sum to 100. -/
def interpolate_allocations (alloc1 alloc2 : List (String × ℚ)) (factor : ℚ) :
    List (String × ℚ) :=
  let result := optimizerAssets.map (fun a =>
    (a, (pyRound (getD alloc1 a * (1 - factor) + getD alloc2 a * factor) : ℚ)))
  let total := (vals result).sum
  if total ≠ 100 then
    mapVals (fun k v => if k = "BONDS" then v + (100 - total) else v) result
  else result

/-- PortfolioOptimizer.optimize_for_risk_score: piecewise-linear interpolation,
factor (score-1)/3 between conservative and moderate for score ≤ 4, else
factor (score-4)/6 between moderate and aggressive. -/
def optimize_for_risk_score (risk_score : ℤ) : List (String × ℚ) :=
  if risk_score ≤ 4 then
    interpolate_allocations conservative8 moderate8 (((risk_score : ℚ) - 1) / 3)
  else
    interpolate_allocations moderate8 aggressive8 (((risk_score : ℚ) - 4) / 6)

/-- Spec-side formula for the claimed per-asset weight of the
risk-score-to-allocation operation, written from the specification text alone:
for score ≤ 4 the weight is round(conservative*(1-f) + moderate*f) with
f = (score-1)/3, otherwise round(moderate*(1-f) + aggressive*f) with
f = (score-4)/6.  Used to compare the claim against the source computation. -/
def specInterpWeight (risk_score : ℤ) (asset : String) : ℤ :=
  if risk_score ≤ 4 then
    pyRound (getD conservative8 asset * (1 - ((risk_score : ℚ) - 1) / 3) +
      getD moderate8 asset * (((risk_score : ℚ) - 1) / 3))
  else
    pyRound (getD moderate8 asset * (1 - ((risk_score : ℚ) - 4) / 6) +
      getD aggressive8 asset * (((risk_score : ℚ) - 4) / 6))

/-! The /optimize endpoint of main.py: exclusion of assets with proportional
redistribution, and the recommended holdings list. -/

/-- One iteration of the exclusion loop of optimize_portfolio in main.py:
if the asset is a key of the allocation, zero it, snapshot the entries with
positive weight, and (when any remain) add
round(excluded_weight * remaining_value / total_remaining) to each of them. -/
def excludeStep (allocation : List (String × ℚ)) (asset : String) : List (String × ℚ) :=
  match alookup allocation asset with
  | none => allocation
  | some excluded_weight =>
    let zeroed := mapVals (fun k v => if k = asset then 0 else v) allocation
    let remaining := zeroed.filter (fun p => decide (0 < p.2))
    if remaining.isEmpty then zeroed
    else
      let total_remaining := (vals remaining).sum
      mapVals (fun _ v =>
        if 0 < v then v + (pyRound (excluded_weight * v / total_remaining) : ℚ) else v) zeroed

/-- The whole exclusion loop of optimize_portfolio, over the exclude_assets
list in order. -/
def applyExclusions (allocation : List (String × ℚ)) (exclude_assets : List String) :
    List (String × ℚ) :=
  exclude_assets.foldl excludeStep allocation

/-- One entry of the recommended_holdings list of optimize_portfolio. -/
structure Holding where
  asset_class : String
  allocation : ℚ
  amount : ℚ
  recommended_etf : String
deriving DecidableEq

/-- The recommended_holdings list of optimize_portfolio: one entry per asset
with weight > 0, amount = round(weight/100 * investment_amount, 2).
The source reads the ETF from ASSET_METRICS (a KeyError for an asset outside
the catalog; allocations built by get_model_portfolio only hold catalog
assets, so the lookup is modelled with a default). -/
def recommended_holdings (allocation : List (String × ℚ)) (investment_amount : ℚ) :
    List Holding :=
  (allocation.filter (fun p => decide (0 < p.2))).map (fun p =>
    { asset_class := p.1
      allocation := p.2
      amount := roundTo2 (p.2 / 100 * investment_amount)
      recommended_etf := (alookup assetEtfs p.1).getD "" })

/-! The /monte-carlo endpoint of main.py.  The request mirrors
MonteCarloRequest; the Gaussian monthly returns the seeded generator realises
are modelled by an explicit stream of draws, consumed in order: path p of a
run with m months per path reads draws p*m, ..., p*m + m - 1. -/

/-- The fields of MonteCarloRequest in main.py. -/
structure MCRequest where
  current_amount : ℚ
  target_amount : ℚ
  monthly_contribution : ℚ
  years_until_target : ℚ
  risk_level : String
  num_simulations : ℕ
deriving DecidableEq

/-- The risk_profiles table of run_monte_carlo: (annual return, annual
volatility) per risk level. -/
def risk_profiles : List (String × (ℚ × ℚ)) :=
  [("conservative", (0.05, 0.08)), ("moderate", (0.07, 0.12)),
   ("aggressive", (0.09, 0.18))]

/-- total_months = int(years_until_target * 12); years_until_target is
validated positive, so int() truncation is the floor. -/
def totalMonths (req : MCRequest) : ℕ := (⌊req.years_until_target * 12⌋).toNat

/-- The inner month loop of one simulated path:
balance = balance * (1 + monthly_ret) + monthly_contribution, the drawn
return of step i being draws i. -/
def simBalance (contrib : ℚ) (draws : ℕ → ℚ) : ℕ → ℚ → ℕ → ℚ
  | _, balance, 0 => balance
  | i, balance, m + 1 => simBalance contrib draws (i + 1) (balance * (1 + draws i) + contrib) m

/-- The terminal balance of simulated path p. -/
def pathTerminal (req : MCRequest) (draws : ℕ → ℚ) (p : ℕ) : ℚ :=
  simBalance req.monthly_contribution draws (p * totalMonths req) req.current_amount
    (totalMonths req)

/-- The results list of run_monte_carlo: one terminal balance per path. -/
def mcResults (req : MCRequest) (draws : ℕ → ℚ) : List ℚ :=
  (List.range req.num_simulations).map (pathTerminal req draws)

/-- success_count: the paths whose terminal balance reached target_amount. -/
def successCount (req : MCRequest) (draws : ℕ → ℚ) : ℕ :=
  ((mcResults req draws).filter (fun b => decide (req.target_amount ≤ b))).length

/-- Linear-interpolation lookup at fractional index h of a sorted array:
s[floor h] + (h - floor h) * (s[ceil h] - s[floor h]). -/
def interpAt (s : List ℚ) (h : ℚ) : ℚ :=
  nth s (⌊h⌋).toNat + (h - ⌊h⌋) * (nth s (⌈h⌉).toNat - nth s (⌊h⌋).toNat)

/-- np.percentile(xs, q) with the default linear interpolation method:
sort ascending, index (n-1)*q/100, interpolate between the adjacent entries. -/
def percentileOf (xs : List ℚ) (q : ℚ) : ℚ :=
  let s := List.insertionSort (· ≤ ·) xs
  interpAt s (((s.length : ℚ) - 1) * (q / 100))

/-- np.mean(xs). -/
def meanOf (xs : List ℚ) : ℚ := xs.sum / (xs.length : ℚ)

/-- The numeric payload of the /monte-carlo response. -/
structure MCOutput where
  success_probability : ℤ
  worst_case : ℤ
  pessimistic : ℤ
  median : ℤ
  mean : ℤ
  optimistic : ℤ
  best_case : ℤ
  num_simulations : ℕ
deriving DecidableEq

/-- The aggregation run_monte_carlo performs over the results list:
success probability round(success_count/num_simulations*100), percentiles at
10/25/50/75/90 and the mean, each rounded to the nearest integer. -/
def mcOutput (req : MCRequest) (draws : ℕ → ℚ) : MCOutput :=
  let results := mcResults req draws
  { success_probability := pyRound (((successCount req draws : ℚ) / (req.num_simulations : ℚ)) * 100)
    worst_case := pyRound (percentileOf results 10)
    pessimistic := pyRound (percentileOf results 25)
    median := pyRound (percentileOf results 50)
    mean := pyRound (meanOf results)
    optimistic := pyRound (percentileOf results 75)
    best_case := pyRound (percentileOf results 90)
    num_simulations := req.num_simulations }

/-- run_monte_carlo in main.py: an unknown risk_level raises (KeyError, a
500 response), otherwise the aggregated output together with the echoed
risk profile. -/
def run_monte_carlo (req : MCRequest) (draws : ℕ → ℚ) : Option (MCOutput × (ℚ × ℚ)) :=
  match alookup risk_profiles req.risk_level with
  | none => none
  | some profile => some (mcOutput req draws, profile)

/-! The /rebalance endpoint of main.py. -/

/-- The fields of RebalanceRequest in main.py. -/
structure RebalanceRequest where
  current_holdings : List (String × ℚ)
  target_allocation : List (String × ℚ)
  threshold : ℚ
deriving DecidableEq

/-- One trade instruction of the /rebalance response. -/
structure Trade where
  asset : String
  action : String
  amount : ℚ
  current_allocation : ℚ
  target_allocation : ℚ
deriving DecidableEq

/-- The /rebalance response data: the zero-total short circuit returns only
needs_rebalancing = false and trades = [], the full shape carries
needs_rebalancing, max_drift, drifts, trades and total_portfolio_value. -/
inductive RebalanceResult where
  | degenerate : RebalanceResult
  | plan (needs_rebalancing : Bool) (max_drift : ℚ) (drifts : List (String × ℚ))
      (trades : List Trade) (total_portfolio_value : ℚ) : RebalanceResult
deriving DecidableEq

/-- total_value = sum(current_holdings.values()). -/
def totalValue (req : RebalanceRequest) : ℚ := (vals req.current_holdings).sum

/-- current_allocation.get(asset, 0): value/total*100 for held symbols, 0
otherwise (0 = 0/total*100, so one expression covers both). -/
def currentPct (req : RebalanceRequest) (asset : String) : ℚ :=
  getD req.current_holdings asset / totalValue req * 100

/-- The max_drift accumulator: max over target assets of
|current_allocation.get(asset, 0) - target|, starting from 0. -/
def maxDrift (req : RebalanceRequest) : ℚ :=
  req.target_allocation.foldl (fun m p => max m |currentPct req p.1 - p.2|) 0

/-- The drifts mapping: round(current - target, 2) per target asset. -/
def driftsOf (req : RebalanceRequest) : List (String × ℚ) :=
  req.target_allocation.map (fun p => (p.1, roundTo2 (currentPct req p.1 - p.2)))

/-- The trade the loop body of calculate_rebalance emits for one target
entry: with the difference target/100*total - current value (the diff local
of the source, spelled out), a trade iff |diff| > 100, BUY when diff > 0
else SELL, amount round(|diff|, 2). -/
def tradeFor (req : RebalanceRequest) (p : String × ℚ) : Option Trade :=
  if 100 < |p.2 / 100 * totalValue req - getD req.current_holdings p.1| then
    some { asset := p.1
           action := if 0 < p.2 / 100 * totalValue req - getD req.current_holdings p.1
             then "BUY" else "SELL"
           amount := roundTo2 |p.2 / 100 * totalValue req - getD req.current_holdings p.1|
           current_allocation := roundTo1 (currentPct req p.1)
           target_allocation := p.2 }
  else none

/-- The trades list: empty unless max_drift exceeds the threshold. -/
def tradesOf (req : RebalanceRequest) : List Trade :=
  if req.threshold < maxDrift req then req.target_allocation.filterMap (tradeFor req)
  else []

/-- calculate_rebalance in main.py. -/
def calculate_rebalance (req : RebalanceRequest) : RebalanceResult :=
  if totalValue req = 0 then .degenerate
  else
    .plan (decide (req.threshold < maxDrift req)) (roundTo2 (maxDrift req)) (driftsOf req)
      (tradesOf req) (roundTo2 (totalValue req))

/-! Shared helper lemmas. -/

/-- A property checked for the ten integer risk scores holds on [1, 10]. -/
theorem forall_score {P : ℤ → Prop} (h : ∀ k : ℕ, k < 10 → P ((k : ℤ) + 1)) :
    ∀ s : ℤ, 1 ≤ s → s ≤ 10 → P s := by
  intro s h1 h2
  have hk : ((s - 1).toNat : ℤ) = s - 1 := Int.toNat_of_nonneg (by omega)
  have hlt : (s - 1).toNat < 10 := by omega
  have := h (s - 1).toNat hlt
  rw [hk] at this
  simpa using this

theorem pyRound_le_floor_add_one {α : Type} [LinearOrderedField α] [FloorRing α] (x : α) :
    pyRound x ≤ ⌊x⌋ + 1 := by
  unfold pyRound; split_ifs <;> omega

theorem floor_le_pyRound {α : Type} [LinearOrderedField α] [FloorRing α] (x : α) :
    ⌊x⌋ ≤ pyRound x := by
  unfold pyRound; split_ifs <;> omega

/-- Rounding half to even is monotone. -/
theorem pyRound_mono {α : Type} [LinearOrderedField α] [FloorRing α] {x y : α}
    (h : x ≤ y) : pyRound x ≤ pyRound y := by
  rcases lt_or_eq_of_le (Int.floor_le_floor h) with hf | hf
  · calc pyRound x ≤ ⌊x⌋ + 1 := pyRound_le_floor_add_one x
      _ ≤ ⌊y⌋ := hf
      _ ≤ pyRound y := floor_le_pyRound y
  · have hfx : ((⌊x⌋ : α)) = ((⌊y⌋ : α)) := by rw [hf]
    have hxy : x - ⌊x⌋ ≤ y - ⌊y⌋ := by rw [← hfx]; linarith
    unfold pyRound
    rw [hf] at *
    split_ifs <;> first | omega | linarith

theorem roundTo2_mono {α : Type} [LinearOrderedField α] [FloorRing α] {x y : α}
    (h : x ≤ y) : roundTo2 x ≤ roundTo2 y := by
  unfold roundTo2
  have := pyRound_mono (mul_le_mul_of_nonneg_right h (by norm_num : (0:α) ≤ 100))
  exact div_le_div_of_nonneg_right (by exact_mod_cast Int.cast_le.mpr this) (by norm_num)

/-! Claim C2: allocations from both risk-score operations have nonnegative
weights summing to exactly 100. -/

/-- C2: for every integer risk score in [1,10], the allocation produced by
the risk-score-to-allocation operations (get_model_portfolio in main.py and
optimize_for_risk_score in portfolio_optimizer.py) has every asset weight
nonnegative and weights summing to exactly 100, the rounding residual having
been added to BONDS. -/
theorem allocation_nonneg_sums_100 (s : ℤ) (h1 : 1 ≤ s) (h2 : s ≤ 10) :
    ((∀ p ∈ get_model_portfolio s, 0 ≤ p.2) ∧ (vals (get_model_portfolio s)).sum = 100)
    ∧ ((∀ p ∈ optimize_for_risk_score s, 0 ≤ p.2)
        ∧ (vals (optimize_for_risk_score s)).sum = 100) := by
  revert s h1 h2
  exact forall_score (by decide)

/-- Witness: the C2 property instantiated at risk score 7. -/
theorem allocation_nonneg_sums_100_witness :
    ((∀ p ∈ get_model_portfolio 7, 0 ≤ p.2) ∧ (vals (get_model_portfolio 7)).sum = 100)
    ∧ ((∀ p ∈ optimize_for_risk_score 7, 0 ≤ p.2)
        ∧ (vals (optimize_for_risk_score 7)).sum = 100) :=
  allocation_nonneg_sums_100 7 (by norm_num) (by norm_num)

/-! Claim C1: the per-asset weights of optimize_for_risk_score against the
piecewise interpolation formula of the specification. -/

/-- C1 counterexample: at risk score 2 the interpolation formula rounds the
BONDS weight to 50, but the operation returns 49 (the rounded weights sum to
101 and the residual -1 lands on BONDS), so the returned per-asset weight is
not round(v1*(1-f) + v2*f) for every asset. -/
theorem optimize_weight_formula_cex :
    alookup (optimize_for_risk_score 2) "BONDS" = some 49
    ∧ specInterpWeight 2 "BONDS" = 50 := by decide

/-- C1 amended: for every integer risk score in [1,10] every asset other than
BONDS gets exactly the weight round(v1*(1-f) + v2*f) of the piecewise
interpolation (f = (score-1)/3 below conservative/moderate for score ≤ 4,
f = (score-4)/6 between moderate and aggressive otherwise), while BONDS gets
that rounded weight plus the signed residual 100 minus the sum of all the
rounded weights. -/
theorem optimize_weight_formula_amended (s : ℤ) (h1 : 1 ≤ s) (h2 : s ≤ 10) :
    (∀ a ∈ optimizerAssets, a ≠ "BONDS" →
      alookup (optimize_for_risk_score s) a = some ((specInterpWeight s a : ℤ) : ℚ))
    ∧ alookup (optimize_for_risk_score s) "BONDS" =
      some (((specInterpWeight s "BONDS" : ℤ) : ℚ) +
        (100 - (optimizerAssets.map (fun a => ((specInterpWeight s a : ℤ) : ℚ))).sum)) := by
  revert s h1 h2
  exact forall_score (by decide)

/-- Witness: the C1 amended property instantiated at risk score 5. -/
theorem optimize_weight_formula_amended_witness :
    (∀ a ∈ optimizerAssets, a ≠ "BONDS" →
      alookup (optimize_for_risk_score 5) a = some ((specInterpWeight 5 a : ℤ) : ℚ))
    ∧ alookup (optimize_for_risk_score 5) "BONDS" =
      some (((specInterpWeight 5 "BONDS" : ℤ) : ℚ) +
        (100 - (optimizerAssets.map (fun a => ((specInterpWeight 5 a : ℤ) : ℚ))).sum)) :=
  optimize_weight_formula_amended 5 (by norm_num) (by norm_num)

/-! Claim C8: zero total portfolio value short-circuits the rebalance. -/

/-- C8: a rebalance request whose current holdings values sum to 0 returns
exactly the degenerate response, needs_rebalancing = false with no trades,
before any division is reached. -/
theorem rebalance_zero_total (req : RebalanceRequest) (h : totalValue req = 0) :
    calculate_rebalance req = .degenerate := by
  unfold calculate_rebalance
  rw [if_pos h]

/-- Witness: a request holding one worthless position short-circuits. -/
theorem rebalance_zero_total_witness :
    calculate_rebalance ⟨[("AAPL", 0)], [("US_STOCKS", 50)], 5⟩ = .degenerate :=
  rebalance_zero_total ⟨[("AAPL", 0)], [("US_STOCKS", 50)], 5⟩ (by decide)

/-! Claim C6: the Sharpe ratio guard. -/

/-- C6: for every weight mapping, the portfolio volatility is nonnegative,
the Sharpe ratio is exactly 0 when the volatility is 0, and it equals
(expected return - risk-free rate) / volatility when the volatility is
positive; the guard makes the two cases exhaustive, so the division is never
taken with a zero divisor. -/
theorem sharpe_ratio_guard (w : List (String × ℚ)) :
    0 ≤ portfolioVolatility w
    ∧ (portfolioVolatility w = 0 → sharpe_ratio w = 0)
    ∧ (0 < portfolioVolatility w →
        sharpe_ratio w =
          (((portfolioExpectedReturn w : ℚ) : ℝ) - 0.03) / portfolioVolatility w) := by
  refine ⟨Real.sqrt_nonneg _, fun h0 => ?_, fun hpos => ?_⟩
  · unfold sharpe_ratio
    rw [if_neg]
    rw [h0]
    exact lt_irrefl 0
  · unfold sharpe_ratio
    rw [if_pos hpos]

/-- Witness: the empty weight mapping has volatility 0 and Sharpe ratio
exactly 0. -/
theorem sharpe_ratio_guard_witness : sharpe_ratio [] = 0 := by
  have hvar : portfolioVarianceQ [] = 0 := by decide
  have hvol : portfolioVolatility [] = 0 := by
    unfold portfolioVolatility
    rw [hvar]
    simp
  exact (sharpe_ratio_guard []).2.1 hvol

/-! Claim C7: portfolio volatility is monotone in the risk score. -/

/-- The exact portfolio variance is monotone over the ten model allocations
(finite check over all score pairs). -/
theorem varianceQ_monotone (s t : ℤ) (h1 : 1 ≤ s) (hst : s ≤ t) (h2 : t ≤ 10) :
    portfolioVarianceQ (get_model_portfolio s) ≤ portfolioVarianceQ (get_model_portfolio t) := by
  have key : ∀ j : ℕ, j < 10 → ∀ k : ℕ, k < 10 → j ≤ k →
      portfolioVarianceQ (get_model_portfolio ((j : ℤ) + 1)) ≤
        portfolioVarianceQ (get_model_portfolio ((k : ℤ) + 1)) := by decide
  have hjk : ((s - 1).toNat : ℤ) = s - 1 := Int.toNat_of_nonneg (by omega)
  have hkk : ((t - 1).toNat : ℤ) = t - 1 := Int.toNat_of_nonneg (by omega)
  have := key (s - 1).toNat (by omega) (t - 1).toNat (by omega) (by omega)
  rw [hjk, hkk] at this
  simpa using this

/-- C7: as the risk score rises from 1 to 10, the volatility computed by the
portfolio statistics on the model allocation never decreases, both as the
exact square root and as the rounded percentage field of
calculate_portfolio_metrics. -/
theorem volatility_monotone (s t : ℤ) (h1 : 1 ≤ s) (hst : s ≤ t) (h2 : t ≤ 10) :
    portfolioVolatility (get_model_portfolio s) ≤ portfolioVolatility (get_model_portfolio t)
    ∧ (calculate_portfolio_metrics (get_model_portfolio s)).volatility ≤
      (calculate_portfolio_metrics (get_model_portfolio t)).volatility := by
  have hvar := varianceQ_monotone s t h1 hst h2
  have hvol : portfolioVolatility (get_model_portfolio s) ≤
      portfolioVolatility (get_model_portfolio t) :=
    Real.sqrt_le_sqrt (by exact_mod_cast hvar)
  refine ⟨hvol, ?_⟩
  unfold calculate_portfolio_metrics
  exact roundTo2_mono (mul_le_mul_of_nonneg_right hvol (by norm_num))

/-- Witness: the volatility at risk score 2 is at most the volatility at
risk score 9. -/
theorem volatility_monotone_witness :
    portfolioVolatility (get_model_portfolio 2) ≤ portfolioVolatility (get_model_portfolio 9)
    ∧ (calculate_portfolio_metrics (get_model_portfolio 2)).volatility ≤
      (calculate_portfolio_metrics (get_model_portfolio 9)).volatility :=
  volatility_monotone 2 9 (by norm_num) (by norm_num) (by norm_num)

/-! Claim C3: the simulation is a deterministic function of its parameters
and of the draws it consumes. -/

/-- The month loop reads exactly the draws at indices i, ..., i + m - 1. -/
theorem simBalance_congr (c : ℚ) (d1 d2 : ℕ → ℚ) :
    ∀ (m i : ℕ) (b : ℚ), (∀ k, k < m → d1 (i + k) = d2 (i + k)) →
      simBalance c d1 i b m = simBalance c d2 i b m := by
  intro m
  induction m with
  | zero => intro i b _; rfl
  | succ m ih =>
    intro i b h
    have e1 : simBalance c d1 i b (m + 1) =
        simBalance c d1 (i + 1) (b * (1 + d1 i) + c) m := rfl
    have e2 : simBalance c d2 i b (m + 1) =
        simBalance c d2 (i + 1) (b * (1 + d2 i) + c) m := rfl
    have h0 : d1 i = d2 i := by simpa using h 0 (by omega)
    rw [e1, e2, h0]
    apply ih
    intro k hk
    have := h (k + 1) (by omega)
    have harr : i + (k + 1) = i + 1 + k := by omega
    rwa [harr] at this

/-- The results list depends only on the request and on the first
num_simulations * total_months draws. -/
theorem mcResults_congr (req : MCRequest) (d1 d2 : ℕ → ℚ)
    (h : ∀ i, i < req.num_simulations * totalMonths req → d1 i = d2 i) :
    mcResults req d1 = mcResults req d2 := by
  unfold mcResults
  apply List.map_congr_left
  intro p hp
  have hpn : p < req.num_simulations := List.mem_range.mp hp
  unfold pathTerminal
  apply simBalance_congr
  intro k hk
  apply h
  calc p * totalMonths req + k < p * totalMonths req + totalMonths req := by omega
    _ = (p + 1) * totalMonths req := by ring
    _ ≤ req.num_simulations * totalMonths req :=
        Nat.mul_le_mul_right (totalMonths req) (by omega)

/-- C3: two runs of the Monte Carlo simulation with identical parameters
whose draw streams agree on every consumed index (in particular two runs
from the same seed) produce identical success_probability and identical
worst_case, pessimistic, median, mean, optimistic and best_case outputs. -/
theorem monte_carlo_deterministic (req : MCRequest) (d1 d2 : ℕ → ℚ)
    (h : ∀ i, i < req.num_simulations * totalMonths req → d1 i = d2 i) :
    run_monte_carlo req d1 = run_monte_carlo req d2 := by
  have hres := mcResults_congr req d1 d2 h
  have hout : mcOutput req d1 = mcOutput req d2 := by
    unfold mcOutput successCount
    rw [hres]
  unfold run_monte_carlo
  rw [hout]

/-- A draw stream that is 0.01 everywhere. -/
def drawsA : ℕ → ℚ := fun _ => 1/100

/-- A draw stream that is 0.01 on the 48 consumed indices of the witness
request and different beyond them. -/
def drawsB : ℕ → ℚ := fun i => if i < 48 then 1/100 else 7

/-- Witness: a two-path two-year moderate request run on two streams that
agree on the 48 consumed draws yields identical responses. -/
theorem monte_carlo_deterministic_witness :
    run_monte_carlo ⟨1000, 2000, 100, 2, "moderate", 2⟩ drawsA =
      run_monte_carlo ⟨1000, 2000, 100, 2, "moderate", 2⟩ drawsB :=
  monte_carlo_deterministic ⟨1000, 2000, 100, 2, "moderate", 2⟩ drawsA drawsB (by decide)

/-! Claim C4: success probability is antitone in the target amount. -/

/-- A filter with a stronger predicate keeps at most as many elements. -/
theorem filter_length_mono {p q : ℚ → Bool} (l : List ℚ)
    (h : ∀ x, p x = true → q x = true) :
    (l.filter p).length ≤ (l.filter q).length := by
  induction l with
  | nil => exact le_refl _
  | cons x xs ih =>
    by_cases hp : p x = true
    · rw [List.filter_cons_of_pos hp, List.filter_cons_of_pos (h x hp)]
      simpa using ih
    · rw [List.filter_cons_of_neg (by simpa using hp)]
      by_cases hq : q x = true
      · rw [List.filter_cons_of_pos hq]
        calc (xs.filter p).length ≤ (xs.filter q).length := ih
          _ ≤ (xs.filter q).length + 1 := by omega
          _ = (x :: xs.filter q).length := by simp
      · rw [List.filter_cons_of_neg (by simpa using hq)]
        exact ih

/-- C4: holding the current amount, monthly contribution, horizon, risk level,
number of simulations and the draw stream fixed, raising target_amount never
raises the returned success_probability. -/
theorem success_probability_antitone (req : MCRequest) (d : ℕ → ℚ) (t' : ℚ)
    (h : req.target_amount ≤ t') :
    (mcOutput { req with target_amount := t' } d).success_probability ≤
      (mcOutput req d).success_probability := by
  have hres : mcResults { req with target_amount := t' } d = mcResults req d := rfl
  have hcount : successCount { req with target_amount := t' } d ≤ successCount req d := by
    unfold successCount
    rw [hres]
    apply filter_length_mono
    intro x hx
    have hx' : t' ≤ x := by simpa using hx
    simpa using le_trans h hx'
  apply pyRound_mono
  have hq : ((successCount { req with target_amount := t' } d : ℚ)) ≤
      ((successCount req d : ℚ)) := by exact_mod_cast hcount
  gcongr

/-- Witness: raising the target from 2000 to 5000 on a fixed request and
stream does not raise the success probability. -/
theorem success_probability_antitone_witness :
    (mcOutput ⟨1000, 5000, 100, 2, "moderate", 2⟩ drawsA).success_probability ≤
      (mcOutput ⟨1000, 2000, 100, 2, "moderate", 2⟩ drawsA).success_probability :=
  success_probability_antitone ⟨1000, 2000, 100, 2, "moderate", 2⟩ drawsA 5000 (by norm_num)

/-! Claim C5: ordering of the projected amounts.  First the machinery for
the percentile lookup on a sorted list. -/

theorem nth_mem : ∀ (s : List ℚ) (i : ℕ), i < s.length → nth s i ∈ s := by
  intro s
  induction s with
  | nil => intro i hi; simp at hi
  | cons x xs ih =>
    intro i hi
    cases i with
    | zero => exact List.mem_cons_self x xs
    | succ i => exact List.mem_cons_of_mem x (ih i (by simpa using hi))

theorem nth_of_mem : ∀ (s : List ℚ) (x : ℚ), x ∈ s → ∃ i, i < s.length ∧ nth s i = x := by
  intro s
  induction s with
  | nil => intro x hx; simp at hx
  | cons y ys ih =>
    intro x hx
    rcases List.mem_cons.mp hx with hx | hx
    · exact ⟨0, by simp, hx.symm⟩
    · obtain ⟨i, hi, hnth⟩ := ih x hx
      exact ⟨i + 1, by simpa using hi, hnth⟩

theorem nth_sorted_mono (s : List ℚ) (hs : s.Sorted (· ≤ ·)) :
    ∀ i j : ℕ, i ≤ j → j < s.length → nth s i ≤ nth s j := by
  induction s with
  | nil => intro i j _ hj; simp at hj
  | cons x xs ih =>
    intro i j hij hj
    cases i with
    | zero =>
      cases j with
      | zero => exact le_refl _
      | succ j =>
        exact List.rel_of_sorted_cons hs _ (nth_mem xs j (by simpa using hj))
    | succ i =>
      cases j with
      | zero => omega
      | succ j => exact ih hs.of_cons i j (by omega) (by simpa using hj)

theorem interpAt_bounds (s : List ℚ) (hs : s.Sorted (· ≤ ·)) (h : ℚ)
    (h0 : 0 ≤ h) (hub : h ≤ (s.length : ℚ) - 1) :
    nth s (⌊h⌋).toNat ≤ interpAt s h ∧ interpAt s h ≤ nth s (⌈h⌉).toNat := by
  have hlen : 1 ≤ s.length := by
    rcases Nat.eq_zero_or_pos s.length with h0len | h1len
    · rw [h0len] at hub; push_cast at hub; linarith
    · exact h1len
  have hfl : (0 : ℤ) ≤ ⌊h⌋ := Int.floor_nonneg.mpr h0
  have hcl : ⌈h⌉ ≤ (s.length : ℤ) - 1 := by
    rw [Int.ceil_le]; push_cast; linarith
  have hfc : ⌊h⌋ ≤ ⌈h⌉ := Int.floor_le_ceil h
  have hab : nth s (⌊h⌋).toNat ≤ nth s (⌈h⌉).toNat :=
    nth_sorted_mono s hs _ _ (by omega) (by omega)
  have hf0 : 0 ≤ h - ⌊h⌋ := by
    have := Int.floor_le h; linarith
  have hf1 : h - ⌊h⌋ ≤ 1 := by
    have := Int.lt_floor_add_one h; push_cast at this; linarith
  unfold interpAt
  constructor
  · nlinarith [mul_nonneg hf0 (sub_nonneg.mpr hab)]
  · nlinarith [mul_nonneg (by linarith : (0:ℚ) ≤ 1 - (h - ⌊h⌋)) (sub_nonneg.mpr hab)]

theorem interpAt_mono (s : List ℚ) (hs : s.Sorted (· ≤ ·)) {h1 h2 : ℚ}
    (h0 : 0 ≤ h1) (h12 : h1 ≤ h2) (hub : h2 ≤ (s.length : ℚ) - 1) :
    interpAt s h1 ≤ interpAt s h2 := by
  have hb1 := interpAt_bounds s hs h1 h0 (le_trans h12 hub)
  have hb2 := interpAt_bounds s hs h2 (le_trans h0 h12) hub
  have hlen : 1 ≤ s.length := by
    rcases Nat.eq_zero_or_pos s.length with h0len | h1len
    · rw [h0len] at hub; push_cast at hub; linarith
    · exact h1len
  have hcl2 : ⌈h2⌉ ≤ (s.length : ℤ) - 1 := by
    rw [Int.ceil_le]; push_cast; linarith
  have hfl1 : (0 : ℤ) ≤ ⌊h1⌋ := Int.floor_nonneg.mpr h0
  have hff' : ⌊h1⌋ ≤ ⌊h2⌋ := Int.floor_le_floor h12
  by_cases hcase : ⌈h1⌉ ≤ ⌊h2⌋
  · calc interpAt s h1 ≤ nth s (⌈h1⌉).toNat := hb1.2
      _ ≤ nth s (⌊h2⌋).toNat := by
          apply nth_sorted_mono s hs _ _ (by omega)
          have := Int.floor_le_ceil h2
          omega
      _ ≤ interpAt s h2 := hb2.1
  · push_neg at hcase
    have hff : ⌊h1⌋ = ⌊h2⌋ := by
      have := Int.ceil_le_floor_add_one h1
      have := Int.floor_le_ceil h1
      omega
    by_cases hceq : ⌈h1⌉ = ⌊h1⌋
    · have hint : interpAt s h1 = nth s (⌊h1⌋).toNat := by
        unfold interpAt; rw [hceq]; ring
      rw [hint, hff]
      exact hb2.1
    · have hc1 : ⌈h1⌉ = ⌊h1⌋ + 1 := by
        have := Int.ceil_le_floor_add_one h1
        have := Int.floor_le_ceil h1
        omega
      have hc2 : ⌈h2⌉ = ⌊h1⌋ + 1 := by
        have hle : ⌈h1⌉ ≤ ⌈h2⌉ := Int.ceil_le_ceil h12
        have := Int.ceil_le_floor_add_one h2
        omega
      have hib : nth s (⌊h2⌋).toNat ≤ nth s (⌊h2⌋ + 1).toNat := by
        apply nth_sorted_mono s hs _ _ (by omega)
        omega
      unfold interpAt
      rw [hc1, hc2, hff]
      nlinarith [mul_nonneg (sub_nonneg.mpr h12)
        (sub_nonneg.mpr hib)]

/-- percentileOf unfolded (the let bindings made explicit). -/
theorem percentileOf_def (xs : List ℚ) (q : ℚ) :
    percentileOf xs q = interpAt (List.insertionSort (· ≤ ·) xs)
      ((((List.insertionSort (· ≤ ·) xs).length : ℚ) - 1) * (q / 100)) := rfl

/-- np.percentile is monotone in the percentile rank. -/
theorem percentileOf_mono (xs : List ℚ) (hlen : 1 ≤ xs.length) {q1 q2 : ℚ}
    (hq0 : 0 ≤ q1) (hq12 : q1 ≤ q2) (hq2 : q2 ≤ 100) :
    percentileOf xs q1 ≤ percentileOf xs q2 := by
  rw [percentileOf_def, percentileOf_def]
  have hslen : (List.insertionSort (· ≤ ·) xs).length = xs.length :=
    (List.perm_insertionSort (· ≤ ·) xs).length_eq
  have hlen1 : (1 : ℚ) ≤ ((List.insertionSort (· ≤ ·) xs).length : ℚ) := by
    rw [hslen]; exact_mod_cast hlen
  apply interpAt_mono _ (List.sorted_insertionSort (· ≤ ·) xs)
  · apply mul_nonneg (by linarith) (by positivity)
  · apply mul_le_mul_of_nonneg_left _ (by linarith)
    apply div_le_div_of_nonneg_right hq12 (by norm_num)
  · calc (((List.insertionSort (· ≤ ·) xs).length : ℚ) - 1) * (q2 / 100) ≤
        (((List.insertionSort (· ≤ ·) xs).length : ℚ) - 1) * 1 := by
          apply mul_le_mul_of_nonneg_left _ (by linarith)
          linarith
      _ = ((List.insertionSort (· ≤ ·) xs).length : ℚ) - 1 := mul_one _

/-- The 0th percentile is the smallest entry. -/
theorem percentileOf_zero (xs : List ℚ) :
    percentileOf xs 0 = nth (List.insertionSort (· ≤ ·) xs) 0 := by
  rw [percentileOf_def]
  unfold interpAt
  norm_num

/-- The 100th percentile is the largest entry. -/
theorem percentileOf_hundred (xs : List ℚ) (hlen : 1 ≤ xs.length) :
    percentileOf xs 100 = nth (List.insertionSort (· ≤ ·) xs) (xs.length - 1) := by
  rw [percentileOf_def]
  have hslen : (List.insertionSort (· ≤ ·) xs).length = xs.length :=
    (List.perm_insertionSort (· ≤ ·) xs).length_eq
  have h100 : (((List.insertionSort (· ≤ ·) xs).length : ℚ) - 1) * ((100 : ℚ) / 100)
      = ((xs.length - 1 : ℕ) : ℚ) := by
    rw [hslen]
    push_cast [hlen]
    ring
  rw [h100]
  unfold interpAt
  rw [Int.floor_natCast, Int.ceil_natCast]
  simp [hslen]

/-- The mean of a nonempty list lies between its smallest and its largest
entry (the 0th and the 100th percentile). -/
theorem mean_between (xs : List ℚ) (hlen : 1 ≤ xs.length) :
    percentileOf xs 0 ≤ meanOf xs ∧ meanOf xs ≤ percentileOf xs 100 := by
  have hperm := List.perm_insertionSort (· ≤ ·) xs
  have hslen : (List.insertionSort (· ≤ ·) xs).length = xs.length := hperm.length_eq
  have hsorted := List.sorted_insertionSort (· ≤ ·) xs
  have hnpos : (0 : ℚ) < (xs.length : ℚ) := by exact_mod_cast hlen
  constructor
  · rw [percentileOf_zero]
    set m := nth (List.insertionSort (· ≤ ·) xs) 0 with hm
    have hall : ∀ x ∈ xs, m ≤ x := by
      intro x hx
      obtain ⟨i, hi, hnth⟩ := nth_of_mem _ x (hperm.mem_iff.mpr hx)
      rw [← hnth]
      exact nth_sorted_mono _ hsorted 0 i (by omega) hi
    have hsum := List.card_nsmul_le_sum xs m hall
    rw [nsmul_eq_mul] at hsum
    unfold meanOf
    rw [le_div_iff₀ hnpos]
    linarith
  · rw [percentileOf_hundred xs hlen]
    set m := nth (List.insertionSort (· ≤ ·) xs) (xs.length - 1) with hm
    have hall : ∀ x ∈ xs, x ≤ m := by
      intro x hx
      obtain ⟨i, hi, hnth⟩ := nth_of_mem _ x (hperm.mem_iff.mpr hx)
      rw [← hnth]
      apply nth_sorted_mono _ hsorted i (xs.length - 1) (by omega)
      omega
    have hsum := List.sum_le_card_nsmul xs m hall
    rw [nsmul_eq_mul] at hsum
    unfold meanOf
    rw [div_le_iff₀ hnpos]
    linarith

/-- C5 amended: the projected amounts are ordered worst_case ≤ pessimistic ≤
median ≤ optimistic ≤ best_case, and the rounded mean lies between the rounded
smallest and the rounded largest terminal balance (the 0th and the 100th
percentile) — not necessarily between worst_case and best_case, which are the
10th and the 90th percentile. -/
theorem projected_amounts_ordered (req : MCRequest) (d : ℕ → ℚ)
    (hn : 1 ≤ req.num_simulations) :
    ((mcOutput req d).worst_case ≤ (mcOutput req d).pessimistic
      ∧ (mcOutput req d).pessimistic ≤ (mcOutput req d).median
      ∧ (mcOutput req d).median ≤ (mcOutput req d).optimistic
      ∧ (mcOutput req d).optimistic ≤ (mcOutput req d).best_case)
    ∧ (pyRound (percentileOf (mcResults req d) 0) ≤ (mcOutput req d).mean
      ∧ (mcOutput req d).mean ≤ pyRound (percentileOf (mcResults req d) 100)) := by
  have hlen : 1 ≤ (mcResults req d).length := by
    unfold mcResults
    simpa using hn
  have hmono : ∀ q1 q2 : ℚ, 0 ≤ q1 → q1 ≤ q2 → q2 ≤ 100 →
      pyRound (percentileOf (mcResults req d) q1) ≤
        pyRound (percentileOf (mcResults req d) q2) := by
    intro q1 q2 a b c
    exact pyRound_mono (percentileOf_mono (mcResults req d) hlen a b c)
  have hmean := mean_between (mcResults req d) hlen
  exact ⟨⟨hmono 10 25 (by norm_num) (by norm_num) (by norm_num),
      hmono 25 50 (by norm_num) (by norm_num) (by norm_num),
      hmono 50 75 (by norm_num) (by norm_num) (by norm_num),
      hmono 75 90 (by norm_num) (by norm_num) (by norm_num)⟩,
    pyRound_mono hmean.1, pyRound_mono hmean.2⟩

/-- Witness: the ordering property instantiated on a concrete two-path run. -/
theorem projected_amounts_ordered_witness :
    ((mcOutput ⟨100, 150, 10, 1/4, "moderate", 2⟩ drawsA).worst_case ≤
        (mcOutput ⟨100, 150, 10, 1/4, "moderate", 2⟩ drawsA).pessimistic
      ∧ (mcOutput ⟨100, 150, 10, 1/4, "moderate", 2⟩ drawsA).pessimistic ≤
        (mcOutput ⟨100, 150, 10, 1/4, "moderate", 2⟩ drawsA).median
      ∧ (mcOutput ⟨100, 150, 10, 1/4, "moderate", 2⟩ drawsA).median ≤
        (mcOutput ⟨100, 150, 10, 1/4, "moderate", 2⟩ drawsA).optimistic
      ∧ (mcOutput ⟨100, 150, 10, 1/4, "moderate", 2⟩ drawsA).optimistic ≤
        (mcOutput ⟨100, 150, 10, 1/4, "moderate", 2⟩ drawsA).best_case)
    ∧ (pyRound (percentileOf (mcResults ⟨100, 150, 10, 1/4, "moderate", 2⟩ drawsA) 0) ≤
        (mcOutput ⟨100, 150, 10, 1/4, "moderate", 2⟩ drawsA).mean
      ∧ (mcOutput ⟨100, 150, 10, 1/4, "moderate", 2⟩ drawsA).mean ≤
        pyRound (percentileOf (mcResults ⟨100, 150, 10, 1/4, "moderate", 2⟩ drawsA) 100)) :=
  projected_amounts_ordered ⟨100, 150, 10, 1/4, "moderate", 2⟩ drawsA (by norm_num)

/-! The C5 counterexample: a valid request (1000 simulations) and a draw
stream on which the rounded mean exceeds best_case, refuting the clause that
the mean lies within the worst_case/best_case band. -/

/-- A one-month request with 1000 paths, current amount 1000000. -/
def cexReq : MCRequest := ⟨1000000, 1, 0, 1/12, "moderate", 1000⟩

/-- Draws: path 999 gains 1000 percent in its single month, every other path
loses everything. -/
def cexDraws : ℕ → ℚ := fun i => if i = 999 then 10 else -1

theorem cex_months : totalMonths cexReq = 1 := by decide

theorem cex_terminal (p : ℕ) :
    pathTerminal cexReq cexDraws p = if p = 999 then 11000000 else 0 := by
  unfold pathTerminal
  rw [cex_months]
  have hstep : simBalance cexReq.monthly_contribution cexDraws (p * 1)
      cexReq.current_amount 1 =
      cexReq.current_amount * (1 + cexDraws (p * 1)) + cexReq.monthly_contribution := rfl
  rw [hstep, Nat.mul_one]
  unfold cexDraws
  show (1000000 : ℚ) * (1 + if p = 999 then 10 else -1) + 0 = _
  split_ifs <;> norm_num

theorem range_map_zero_outside {f : ℕ → ℚ} :
    ∀ n : ℕ, (∀ p, p < n → f p = 0) → (List.range n).map f = List.replicate n 0 := by
  intro n
  induction n with
  | zero => intro _; rfl
  | succ n ih =>
    intro h
    rw [List.range_succ, List.map_append, ih (fun p hp => h p (by omega))]
    rw [List.replicate_succ' n (0:ℚ)]
    simp [h n (by omega)]

set_option maxRecDepth 8000 in
theorem cex_results : mcResults cexReq cexDraws = List.replicate 999 0 ++ [11000000] := by
  unfold mcResults
  show (List.range 1000).map (pathTerminal cexReq cexDraws) = _
  rw [show (1000 : ℕ) = 999 + 1 from rfl, List.range_succ, List.map_append]
  have h1 : (List.range 999).map (pathTerminal cexReq cexDraws) = List.replicate 999 0 :=
    range_map_zero_outside 999 (fun p hp => by rw [cex_terminal, if_neg (by omega)])
  have h2 : (List.map (pathTerminal cexReq cexDraws) [999]) = [(11000000 : ℚ)] := by
    rw [List.map_singleton, cex_terminal, if_pos rfl]
  rw [h1, h2]

theorem nth_replicate_append (a b : ℚ) :
    ∀ (n i : ℕ), i < n → nth (List.replicate n a ++ [b]) i = a := by
  intro n
  induction n with
  | zero => intro i hi; omega
  | succ n ih =>
    intro i hi
    rw [List.replicate_succ, List.cons_append]
    cases i with
    | zero => rfl
    | succ i => exact ih i (by omega)

theorem sorted_replicate_append (a b : ℚ) (hab : a ≤ b) :
    ∀ n : ℕ, List.Sorted (· ≤ ·) (List.replicate n a ++ [b]) := by
  intro n
  induction n with
  | zero => simp
  | succ n ih =>
    rw [List.replicate_succ, List.cons_append]
    apply List.sorted_cons.mpr
    refine ⟨?_, ih⟩
    intro x hx
    rcases List.mem_append.mp hx with hx | hx
    · rw [List.eq_of_mem_replicate hx]
    · rw [List.mem_singleton.mp hx]; exact hab

/-- The best_case field unfolded. -/
theorem mcOutput_best_case (req : MCRequest) (d : ℕ → ℚ) :
    (mcOutput req d).best_case = pyRound (percentileOf (mcResults req d) 90) := rfl

/-- The mean field unfolded. -/
theorem mcOutput_mean (req : MCRequest) (d : ℕ → ℚ) :
    (mcOutput req d).mean = pyRound (meanOf (mcResults req d)) := rfl

set_option maxRecDepth 8000 in
/-- C5 counterexample: on the concrete 1000-path request cexReq with the
draw stream cexDraws, best_case is 0 while the rounded mean is 11000, so the
mean does not lie within [worst_case, best_case]. -/
theorem projected_mean_outside_band_cex :
    (mcOutput cexReq cexDraws).best_case < (mcOutput cexReq cexDraws).mean := by
  have hsorted : List.insertionSort (· ≤ ·) (List.replicate 999 (0:ℚ) ++ [11000000]) =
      List.replicate 999 0 ++ [11000000] :=
    List.Sorted.insertionSort_eq (sorted_replicate_append 0 11000000 (by norm_num) 999)
  have hbest : (mcOutput cexReq cexDraws).best_case = 0 := by
    rw [mcOutput_best_case, cex_results, percentileOf_def, hsorted]
    have hlen : (List.replicate 999 (0:ℚ) ++ [11000000]).length = 1000 := by simp
    rw [hlen]
    have hidx : (((1000 : ℕ) : ℚ) - 1) * ((90 : ℚ) / 100) = 8991/10 := by norm_num
    rw [hidx]
    unfold interpAt
    have hfl : ⌊(8991/10 : ℚ)⌋ = 899 := by decide
    have hcl : ⌈(8991/10 : ℚ)⌉ = 900 := by decide
    rw [hfl, hcl]
    have h899 : ((899 : ℤ)).toNat = 899 := rfl
    have h900 : ((900 : ℤ)).toNat = 900 := rfl
    rw [h899, h900]
    rw [nth_replicate_append 0 11000000 999 899 (by norm_num),
      nth_replicate_append 0 11000000 999 900 (by norm_num)]
    have harg : (0 : ℚ) + (8991/10 - ((899 : ℤ) : ℚ)) * (0 - 0) = 0 := by ring
    rw [harg]
    decide
  have hmean : (mcOutput cexReq cexDraws).mean = 11000 := by
    rw [mcOutput_mean, cex_results]
    unfold meanOf
    rw [List.sum_append, List.sum_replicate]
    have hlen : (List.replicate 999 (0:ℚ) ++ [11000000]).length = 1000 := by simp
    rw [hlen]
    have harg : ((999 : ℕ) • (0:ℚ) + (List.sum [(11000000 : ℚ)])) / ((1000 : ℕ) : ℚ)
        = 11000 := by
      simp
      norm_num
    rw [harg]
    decide
  rw [hbest, hmean]
  norm_num

/-! Claim C9: characterization of the emitted trades. -/

/-- In an association list without duplicate keys, membership determines the
lookup. -/
theorem alookup_eq_of_mem_nodup {β : Type} {l : List (String × β)} {a : String} {v : β}
    (hnodup : (keys l).Nodup) (hmem : (a, v) ∈ l) : alookup l a = some v := by
  induction l with
  | nil => simp at hmem
  | cons p rest ih =>
    have hnodups : (p.1 :: keys rest).Nodup := by simpa [keys] using hnodup
    obtain ⟨hhead, htail⟩ := List.nodup_cons.mp hnodups
    rcases List.mem_cons.mp hmem with heq | hmem'
    · rw [← heq]
      simp [alookup]
    · have hka : a ∈ keys rest := List.mem_map.mpr ⟨(a, v), hmem', rfl⟩
      have hne : p.1 ≠ a := by
        intro hcontra
        rw [hcontra] at hhead
        exact hhead hka
      simp only [alookup, if_neg hne]
      exact ih htail hmem'

theorem tradeFor_pos {req : RebalanceRequest} {p : String × ℚ}
    (h : 100 < |p.2 / 100 * totalValue req - getD req.current_holdings p.1|) :
    tradeFor req p = some
      { asset := p.1
        action := if 0 < p.2 / 100 * totalValue req - getD req.current_holdings p.1
          then "BUY" else "SELL"
        amount := roundTo2 |p.2 / 100 * totalValue req - getD req.current_holdings p.1|
        current_allocation := roundTo1 (currentPct req p.1)
        target_allocation := p.2 } := by
  unfold tradeFor
  rw [if_pos h]

theorem tradeFor_inv {req : RebalanceRequest} {p : String × ℚ} {tr : Trade}
    (h : tradeFor req p = some tr) :
    tr.asset = p.1 ∧ 100 < |p.2 / 100 * totalValue req - getD req.current_holdings p.1| := by
  unfold tradeFor at h
  by_cases hc : 100 < |p.2 / 100 * totalValue req - getD req.current_holdings p.1|
  · rw [if_pos hc] at h
    have := Option.some.inj h
    rw [← this]
    exact ⟨rfl, hc⟩
  · rw [if_neg hc] at h
    simp at h

/-- C9: when rebalancing is needed (max drift above the threshold), a trade
is emitted for a target asset exactly when |target/100*total - current value|
exceeds 100 currency units, with action BUY for a positive difference and
SELL for a negative one and amount round(|difference|, 2); every emitted
trade is for a target asset, so a held asset absent from the target
allocation is never traded. -/
theorem rebalance_trades_spec (req : RebalanceRequest)
    (hnodup : (keys req.target_allocation).Nodup)
    (hneeds : req.threshold < maxDrift req) :
    (∀ a t, (a, t) ∈ req.target_allocation →
      (100 < |t / 100 * totalValue req - getD req.current_holdings a| →
        ∃ tr ∈ tradesOf req, tr.asset = a
          ∧ tr.action = (if 0 < t / 100 * totalValue req - getD req.current_holdings a
              then "BUY" else "SELL")
          ∧ tr.amount = roundTo2 |t / 100 * totalValue req - getD req.current_holdings a|)
      ∧ (|t / 100 * totalValue req - getD req.current_holdings a| ≤ 100 →
        ∀ tr ∈ tradesOf req, tr.asset ≠ a))
    ∧ (∀ tr ∈ tradesOf req, tr.asset ∈ keys req.target_allocation) := by
  have htrades : tradesOf req = req.target_allocation.filterMap (tradeFor req) := by
    unfold tradesOf
    rw [if_pos hneeds]
  constructor
  · intro a t hmem
    constructor
    · intro hgt
      refine ⟨{ asset := a
                action := if 0 < t / 100 * totalValue req - getD req.current_holdings a
                  then "BUY" else "SELL"
                amount := roundTo2 |t / 100 * totalValue req - getD req.current_holdings a|
                current_allocation := roundTo1 (currentPct req a)
                target_allocation := t }, ?_, rfl, rfl, rfl⟩
      rw [htrades]
      exact List.mem_filterMap.mpr ⟨(a, t), hmem, tradeFor_pos hgt⟩
    · intro hle tr htr hcontra
      rw [htrades] at htr
      obtain ⟨p, hp, hfp⟩ := List.mem_filterMap.mp htr
      obtain ⟨hasset, hgt⟩ := tradeFor_inv hfp
      have hpa : p.1 = a := by rw [← hasset, hcontra]
      have h1 : alookup req.target_allocation a = some t := alookup_eq_of_mem_nodup hnodup hmem
      have h2 : alookup req.target_allocation a = some p.2 := by
        apply alookup_eq_of_mem_nodup hnodup
        rw [← hpa]
        exact hp
      have hpt : p.2 = t := by
        rw [h1] at h2
        exact (Option.some.inj h2).symm
      rw [hpa, hpt] at hgt
      linarith
  · intro tr htr
    rw [htrades] at htr
    obtain ⟨p, hp, hfp⟩ := List.mem_filterMap.mp htr
    rw [(tradeFor_inv hfp).1]
    exact List.mem_map.mpr ⟨p, hp, rfl⟩

/-- Witness: the specification's worked example, holdings A = 6000 and
B = 4000 against a 50/50 target with threshold 5: asset A is sold for
exactly 1000. -/
theorem rebalance_trades_spec_witness :
    ∃ tr ∈ tradesOf ⟨[("A", 6000), ("B", 4000)], [("A", 50), ("B", 50)], 5⟩,
      tr.asset = "A" ∧ tr.action = "SELL" ∧ tr.amount = 1000 := by
  obtain ⟨tr, htr, h1, h2, h3⟩ :=
    ((rebalance_trades_spec ⟨[("A", 6000), ("B", 4000)], [("A", 50), ("B", 50)], 5⟩
      (by decide) (by decide)).1 "A" 50 (by decide)).1 (by decide)
  refine ⟨tr, htr, h1, ?_, ?_⟩
  · rw [h2]
    decide
  · rw [h3]
    decide

/-! Claim C10: asset exclusion in the /optimize endpoint. -/

theorem keys_mapVals (g : String → ℚ → ℚ) (l : List (String × ℚ)) :
    keys (mapVals g l) = keys l := by
  induction l with
  | nil => rfl
  | cons p rest ih =>
    show p.1 :: keys (mapVals g rest) = p.1 :: keys rest
    rw [ih]

theorem alookup_mapVals (g : String → ℚ → ℚ) (l : List (String × ℚ)) (a : String) :
    alookup (mapVals g l) a = (alookup l a).map (g a) := by
  induction l with
  | nil => rfl
  | cons p rest ih =>
    by_cases h : p.1 = a
    · simp [mapVals, alookup, h]
    · simp only [mapVals, List.map_cons, alookup, if_neg h]
      exact ih

theorem alookup_eq_none_of_not_mem {β : Type} {l : List (String × β)} {a : String}
    (h : a ∉ keys l) : alookup l a = none := by
  induction l with
  | nil => rfl
  | cons p rest ih =>
    have h' : a ∉ p.1 :: keys rest := h
    have hne : p.1 ≠ a := by
      intro hcontra
      exact h' (by rw [hcontra]; exact List.mem_cons_self a (keys rest))
    simp only [alookup, if_neg hne]
    exact ih (fun hm => h' (List.mem_cons_of_mem _ hm))

theorem alookup_of_mem_keys {β : Type} {l : List (String × β)} {a : String}
    (h : a ∈ keys l) : ∃ v, alookup l a = some v := by
  induction l with
  | nil => simp [keys] at h
  | cons p rest ih =>
    by_cases hpa : p.1 = a
    · exact ⟨p.2, by simp [alookup, hpa]⟩
    · have h' : a ∈ p.1 :: keys rest := h
      rcases List.mem_cons.mp h' with hc | hc
      · exact absurd hc.symm hpa
      · obtain ⟨v, hv⟩ := ih hc
        exact ⟨v, by simp only [alookup, if_neg hpa]; exact hv⟩

theorem keys_excludeStep (al : List (String × ℚ)) (b : String) :
    keys (excludeStep al b) = keys al := by
  unfold excludeStep
  split
  · rfl
  · dsimp only
    split
    · exact keys_mapVals _ al
    · rw [keys_mapVals, keys_mapVals]

theorem alookup_excludeStep_zero {al : List (String × ℚ)} {a : String} (b : String)
    (h : alookup al a = some 0) : alookup (excludeStep al b) a = some 0 := by
  unfold excludeStep
  split
  · exact h
  · dsimp only
    have hz : alookup (mapVals (fun k v => if k = b then 0 else v) al) a = some 0 := by
      rw [alookup_mapVals, h]
      simp
    split
    · exact hz
    · rw [alookup_mapVals, hz]
      simp

theorem alookup_excludeStep_self {al : List (String × ℚ)} {a : String} {w : ℚ}
    (h : alookup al a = some w) : alookup (excludeStep al a) a = some 0 := by
  unfold excludeStep
  rw [h]
  dsimp only
  have hz : alookup (mapVals (fun k v => if k = a then 0 else v) al) a = some 0 := by
    rw [alookup_mapVals, h]
    simp
  split
  · exact hz
  · rw [alookup_mapVals, hz]
    simp

theorem excludeStep_not_mem {al : List (String × ℚ)} {a : String}
    (h : a ∉ keys al) : excludeStep al a = al := by
  unfold excludeStep
  rw [alookup_eq_none_of_not_mem h]

theorem keys_applyExclusions (ex : List String) :
    ∀ al : List (String × ℚ), keys (applyExclusions al ex) = keys al := by
  induction ex with
  | nil => intro al; rfl
  | cons b ex ih =>
    intro al
    show keys (applyExclusions (excludeStep al b) ex) = keys al
    rw [ih, keys_excludeStep]

theorem alookup_applyExclusions_zero (ex : List String) :
    ∀ (al : List (String × ℚ)) (a : String), alookup al a = some 0 →
      alookup (applyExclusions al ex) a = some 0 := by
  induction ex with
  | nil => intro al a h; exact h
  | cons b ex ih =>
    intro al a h
    show alookup (applyExclusions (excludeStep al b) ex) a = some 0
    exact ih _ a (alookup_excludeStep_zero b h)

/-- An asset of the exclusion list that is a key of the allocation ends with
weight exactly 0. -/
theorem alookup_applyExclusions_excluded (ex : List String) :
    ∀ (al : List (String × ℚ)) (a : String), a ∈ ex → a ∈ keys al →
      alookup (applyExclusions al ex) a = some 0 := by
  induction ex with
  | nil => intro al a hmem; simp at hmem
  | cons b ex ih =>
    intro al a hmem hkeys
    rcases List.mem_cons.mp hmem with heq | hmem'
    · subst heq
      obtain ⟨w, hw⟩ := alookup_of_mem_keys hkeys
      show alookup (applyExclusions (excludeStep al a) ex) a = some 0
      exact alookup_applyExclusions_zero ex _ a (alookup_excludeStep_self hw)
    · show alookup (applyExclusions (excludeStep al b) ex) a = some 0
      exact ih _ a hmem' (by rw [keys_excludeStep]; exact hkeys)

/-- An asset whose final weight is 0 never appears in the recommended
holdings (which list assets with positive weight only). -/
theorem not_mem_holdings_of_zero {al : List (String × ℚ)} {a : String}
    (hnodup : (keys al).Nodup) (h : alookup al a = some 0) (inv : ℚ) :
    ∀ hd ∈ recommended_holdings al inv, hd.asset_class ≠ a := by
  intro hd hmem hcontra
  unfold recommended_holdings at hmem
  obtain ⟨p, hp, hpeq⟩ := List.mem_map.mp hmem
  obtain ⟨hpal, hpdec⟩ := List.mem_filter.mp hp
  subst hpeq
  have hp1 : p.1 = a := hcontra
  have hmem' : (a, p.2) ∈ al := by
    rw [← hp1]
    exact hpal
  have hlook := alookup_eq_of_mem_nodup hnodup hmem'
  rw [h] at hlook
  have hp2 : p.2 = 0 := (Option.some.inj hlook).symm
  have hpos : 0 < p.2 := of_decide_eq_true hpdec
  rw [hp2] at hpos
  exact lt_irrefl 0 hpos

theorem keys_tag_map (f : String → ℚ) (l : List String) :
    keys (l.map (fun a => (a, f a))) = l := by
  induction l with
  | nil => rfl
  | cons x xs ih => simp [keys] at ih ⊢; exact ih

/-- The allocation built by get_model_portfolio always has exactly the six
catalog assets as keys, in ASSET_ORDER order. -/
theorem keys_get_model_portfolio (s : ℤ) : keys (get_model_portfolio s) = ASSET_ORDER := by
  unfold get_model_portfolio
  dsimp only
  split
  · rw [keys_mapVals]
    exact keys_tag_map _ _
  · exact keys_tag_map _ _

/-- C10: in the /optimize flow, an asset named in exclude_assets that is a
key of the model allocation ends with weight exactly 0 and never appears in
recommended_holdings; an excluded name that is not a key of the allocation
leaves the exclusion result completely unchanged. -/
theorem optimize_exclusions (s : ℤ) (ex : List String) (a : String) (inv : ℚ) :
    (a ∈ ex → a ∈ keys (get_model_portfolio s) →
      alookup (applyExclusions (get_model_portfolio s) ex) a = some 0
      ∧ ∀ hd ∈ recommended_holdings (applyExclusions (get_model_portfolio s) ex) inv,
          hd.asset_class ≠ a)
    ∧ (a ∉ keys (get_model_portfolio s) →
      applyExclusions (get_model_portfolio s) (a :: ex) =
        applyExclusions (get_model_portfolio s) ex) := by
  constructor
  · intro hmem hkeys
    have h0 := alookup_applyExclusions_excluded ex (get_model_portfolio s) a hmem hkeys
    refine ⟨h0, ?_⟩
    apply not_mem_holdings_of_zero ?_ h0
    rw [keys_applyExclusions, keys_get_model_portfolio]
    decide
  · intro hnot
    show applyExclusions (excludeStep (get_model_portfolio s) a) ex =
      applyExclusions (get_model_portfolio s) ex
    rw [excludeStep_not_mem hnot]

/-- Witness: excluding US_STOCKS from the risk-5 model portfolio zeroes it
and keeps it out of the holdings of a 10000 investment. -/
theorem optimize_exclusions_witness :
    alookup (applyExclusions (get_model_portfolio 5) ["US_STOCKS"]) "US_STOCKS" = some 0
    ∧ ∀ hd ∈ recommended_holdings (applyExclusions (get_model_portfolio 5) ["US_STOCKS"]) 10000,
        hd.asset_class ≠ "US_STOCKS" :=
  (optimize_exclusions 5 ["US_STOCKS"] "US_STOCKS" 10000).1 (by decide) (by decide)

end WealthWise
